import Mathlib

/-!
# Verification of the recognition service

A shallow embedding in Lean 4 of the parts of the face-recognition service
relevant to its specification: embedding matching (`src/recognition/matching.py`),
presence management (`src/recognition/presence.py`), face tracking
(`src/recognition/tracker.py`), camera connection and MJPEG stream reading
(`src/camera.py`), and the multi-camera orchestrator
(`src/multi_camera_manager.py`).

Real-valued quantities (times, similarities, pixel coordinates) are modelled
as rationals `ℚ`; Python `Optional[int]` becomes `Option Int`; Python dicts
keyed by ids become association lists preserving insertion order.
External effects (the wall clock, HTTP, OpenCV decoding) are passed in as
explicit parameters or oracle functions, so every definition is executable.
-/

namespace RecognitionService

/-! ## Matching (`src/recognition/matching.py`) -/

/-- Dot product of two vectors, `float(np.dot(a, b))` on equal-length
normalized embeddings. -/
def dot (xs ys : List ℚ) : ℚ :=
  (List.zipWith (· * ·) xs ys).sum

/-- Index of the first occurrence of the maximum of a list, the behaviour of
`int(np.argmax(similarities))` (numpy documents that the first occurrence is
returned).  On the empty list it returns `0` (numpy raises there; the caller
guards the empty case). -/
def np_argmax : List ℚ → Nat
  | [] => 0
  | [_] => 0
  | x :: y :: ys =>
    let j := np_argmax (y :: ys)
    if x < (y :: ys).getD j 0 then j + 1 else 0

/-- The list comprehension
`[float(np.dot(embedding, known_emb)) for known_emb in known_embeddings]`
of `match_embedding_to_employee`. -/
def similarities (embedding : List ℚ) (known_embeddings : List (List ℚ)) :
    List ℚ :=
  known_embeddings.map (fun known_emb => dot embedding known_emb)

/-- `match_embedding_to_employee` from `src/recognition/matching.py`.
Returns `(employee_id, confidence)`, or `(none, 0)` when the roster is empty
or the best similarity does not exceed `config.insightface_threshold`
(passed here as `threshold`). -/
def match_embedding_to_employee (embedding : List ℚ)
    (known_embeddings : List (List ℚ)) (known_ids : List Int)
    (threshold : ℚ) : Option Int × ℚ :=
  if known_embeddings.isEmpty then (none, 0)
  else
    let sims := similarities embedding known_embeddings
    let best_idx := np_argmax sims
    let best_similarity := sims.getD best_idx 0
    if threshold < best_similarity then (known_ids.getD best_idx 0, best_similarity)
    else (none, 0)

/-! ## Presence management (`src/recognition/presence.py`) -/

/-- The per-employee state dict of `PresenceManager`:
`{'present': ..., 'last_seen': ..., 'last_state_change': ...}`. -/
structure EmpState where
  present : Bool
  last_seen : ℚ
  last_state_change : ℚ
  deriving Repr, DecidableEq

/-- The two thresholds of `Config` that `PresenceManager.update` reads. -/
structure PresenceConfig where
  in_threshold_seconds : ℚ
  out_threshold_seconds : ℚ
  deriving Repr, DecidableEq

/-- An emitted presence event type, the strings `'IN'` / `'OUT'`. -/
inductive Ev where
  | IN
  | OUT
  deriving Repr, DecidableEq

/-- First pass of `PresenceManager.update`: for each recognized employee id
present in the state dict, set `last_seen = now`.  The state dict is an
association list in insertion order; ids detected but not tracked are
skipped (`if emp_id in self.state`). -/
def pass1entry (now : ℚ) (recognized : List Nat) (p : Nat × EmpState) :
    Nat × EmpState :=
  if p.1 ∈ recognized then (p.1, { p.2 with last_seen := now }) else p

/-- Second pass of `PresenceManager.update`, for a single state entry:
the debounce rule producing the updated entry and its emitted events. -/
def stepEntry (cfg : PresenceConfig) (now : ℚ) (recognized : List Nat)
    (p : Nat × EmpState) : (Nat × EmpState) × List (Nat × Ev) :=
  let (emp_id, s) := p
  if emp_id ∈ recognized then
    if s.present = false ∧ cfg.in_threshold_seconds < now - s.last_state_change then
      ((emp_id, { s with present := true, last_state_change := now }), [(emp_id, Ev.IN)])
    else ((emp_id, s), [])
  else
    if s.present = true ∧ cfg.out_threshold_seconds < now - s.last_seen then
      ((emp_id, { s with present := false, last_state_change := now }), [(emp_id, Ev.OUT)])
    else ((emp_id, s), [])

/-- `PresenceManager.update` from `src/recognition/presence.py`: updates
`last_seen` of every recognized tracked employee, then applies the debounce
rule to every tracked employee, returning the new state dict and the list of
`(employee_id, event)` pairs in iteration order.  The wall-clock read
`time.time()` is the parameter `now`. -/
def PresenceManager.update (cfg : PresenceConfig) (now : ℚ)
    (recognized : List Nat) (state : List (Nat × EmpState)) :
    List (Nat × EmpState) × List (Nat × Ev) :=
  let st1 := state.map (pass1entry now recognized)
  (st1.map (fun p => (stepEntry cfg now recognized p).1),
   (st1.map (fun p => (stepEntry cfg now recognized p).2)).flatten)

/-- `PresenceManager.__init__`: every listed employee starts absent with
zeroed timestamps. -/
def PresenceManager.init (employee_ids : List Nat) : List (Nat × EmpState) :=
  employee_ids.map (fun emp_id => (emp_id, ⟨false, 0, 0⟩))

/-! ## Face tracking (`src/recognition/tracker.py`) -/

/-- A bounding box `[x1, y1, x2, y2]`. -/
structure Bbox where
  x1 : ℚ
  y1 : ℚ
  x2 : ℚ
  y2 : ℚ
  deriving Repr, DecidableEq

/-- `compute_iou` from `src/recognition/tracker.py`: intersection over union
of two boxes, `0` when the union area is `0`. -/
def compute_iou (bbox1 bbox2 : Bbox) : ℚ :=
  let inter_x_min := max bbox1.x1 bbox2.x1
  let inter_y_min := max bbox1.y1 bbox2.y1
  let inter_x_max := min bbox1.x2 bbox2.x2
  let inter_y_max := min bbox1.y2 bbox2.y2
  let inter_area := max 0 (inter_x_max - inter_x_min) * max 0 (inter_y_max - inter_y_min)
  let bbox1_area := (bbox1.x2 - bbox1.x1) * (bbox1.y2 - bbox1.y1)
  let bbox2_area := (bbox2.x2 - bbox2.x1) * (bbox2.y2 - bbox2.y1)
  let union_area := bbox1_area + bbox2_area - inter_area
  if union_area = 0 then 0 else inter_area / union_area

/-- The quality-metrics dict produced by `is_face_acceptable`
(`height`, `width`, `blur_score`, `brightness`). -/
structure Quality where
  height : ℚ
  width : ℚ
  blur_score : ℚ
  brightness : ℚ
  deriving Repr, DecidableEq

/-- One InsightFace detection result as consumed by `FaceTracker.update`:
its bounding box and its normalized embedding. -/
structure Face where
  bbox : Bbox
  normed_embedding : List ℚ

/-- The tracker section of `Config`. -/
structure TrackerConfig where
  min_embeddings_per_track : Nat
  track_max_age_seconds : ℚ
  iou_threshold : ℚ
  insightface_threshold : ℚ

/-- A `FaceTrack` object.  `quality_scores` stores the metrics dicts
accumulated alongside the embeddings. -/
structure FaceTrack where
  track_id : Nat
  embeddings : List (List ℚ)
  quality_scores : List Quality
  last_bbox : Option Bbox
  last_update_time : ℚ
  recognized_employee_id : Option Int
  recognition_confidence : ℚ

/-- `FaceTrack.__init__`: a fresh track with the given id, created at time
`now` (`time.time()`), with no embeddings and no recognized employee. -/
def FaceTrack.mk0 (track_id : Nat) (now : ℚ) : FaceTrack :=
  ⟨track_id, [], [], none, now, none, 0⟩

/-- `FaceTrack.add_embedding`: append the embedding and quality, remember the
bbox, refresh `last_update_time`. -/
def FaceTrack.add_embedding (t : FaceTrack) (embedding : List ℚ) (quality : Quality)
    (bbox : Bbox) (now : ℚ) : FaceTrack :=
  { t with
    embeddings := t.embeddings ++ [embedding]
    quality_scores := t.quality_scores ++ [quality]
    last_bbox := some bbox
    last_update_time := now }

/-- `FaceTrack.is_ready_for_recognition`:
`len(self.embeddings) >= config.min_embeddings_per_track`. -/
def FaceTrack.is_ready_for_recognition (t : FaceTrack) (cfg : TrackerConfig) : Bool :=
  cfg.min_embeddings_per_track ≤ t.embeddings.length

/-- Element-wise sum of two vectors (`np.mean` works element-wise; all
embeddings of one track have the same dimension). -/
def vecAdd (xs ys : List ℚ) : List ℚ :=
  List.zipWith (· + ·) xs ys

/-- `FaceTrack.get_average_embedding`: `np.mean(self.embeddings, axis=0)`,
`none` when the track has no embeddings. -/
def FaceTrack.get_average_embedding (t : FaceTrack) : Option (List ℚ) :=
  match t.embeddings with
  | [] => none
  | e :: es => some ((es.foldl vecAdd e).map (fun x => x / (es.length + 1)))

/-- `FaceTrack.is_alive`:
`(time.time() - self.last_update_time) < config.track_max_age_seconds`. -/
def FaceTrack.is_alive (t : FaceTrack) (cfg : TrackerConfig) (now : ℚ) : Bool :=
  now - t.last_update_time < cfg.track_max_age_seconds

/-- Python truthiness of an `Optional[int]`: `None` and `0` are falsy.
Models `if emp_id:` and `not best_track.recognized_employee_id`. -/
def pyTruthy : Option Int → Bool
  | none => false
  | some k => k ≠ 0

/-- `FaceTracker._find_matching_track`, with an explicit index: scans the
track list, skipping already-matched ids and tracks without a bbox, keeping
the strictly best IoU above `config.iou_threshold`.  Returns the index of
the chosen track. -/
def findMatchingTrackAux (cfg : TrackerConfig) (bbox : Bbox) (matched : List Nat) :
    List FaceTrack → Nat → Option Nat → ℚ → Option Nat
  | [], _, best_track, _ => best_track
  | t :: ts, i, best_track, best_iou =>
    if t.track_id ∈ matched then
      findMatchingTrackAux cfg bbox matched ts (i + 1) best_track best_iou
    else
      match t.last_bbox with
      | none => findMatchingTrackAux cfg bbox matched ts (i + 1) best_track best_iou
      | some bb =>
        let iou := compute_iou bbox bb
        if cfg.iou_threshold < iou ∧ best_iou < iou then
          findMatchingTrackAux cfg bbox matched ts (i + 1) (some i) iou
        else
          findMatchingTrackAux cfg bbox matched ts (i + 1) best_track best_iou

/-- Entry point of `_find_matching_track` (`best_track = None`,
`best_iou = 0.0`). -/
def findMatchingTrack (cfg : TrackerConfig) (tracks : List FaceTrack)
    (matched : List Nat) (bbox : Bbox) : Option Nat :=
  findMatchingTrackAux cfg bbox matched tracks 0 none 0

/-- The mutable state threaded through the `for face in faces` loop of
`FaceTracker.update`: the track list (`self.tracks`), the set
`matched_track_ids`, and `self.next_track_id`. -/
structure StepState where
  tracks : List FaceTrack
  matched : List Nat
  next_track_id : Nat

/-- The external inputs of one loop iteration that come from the frame
pixels: `cropOk f` models `not (face_crop is None or face_crop.size == 0)`
for the crop of `f`, and `assess f` the result of
`is_face_acceptable(face_crop, bbox, config)` (both depend only on image
content the tracker does not inspect otherwise; the preprocessing call's
result is bound to an unused variable in the source and so is not
modelled). -/
structure FrameOracle where
  cropOk : Face → Bool
  assess : Face → Bool × Quality

/-- The `# Try recognition if ready` block of `FaceTracker.update`, applied
to a track that just received an embedding: when the track is ready and has
no truthy `recognized_employee_id`, match the average embedding and, on a
truthy result, set `recognized_employee_id` and `recognition_confidence`. -/
def resolveTrack (cfg : TrackerConfig) (known_embeddings : List (List ℚ))
    (known_ids : List Int) (t1 : FaceTrack) : FaceTrack :=
  if t1.is_ready_for_recognition cfg ∧ pyTruthy t1.recognized_employee_id = false then
    match t1.get_average_embedding with
    | none => t1
    | some avg_embedding =>
      let r :=
        match_embedding_to_employee avg_embedding known_embeddings known_ids
          cfg.insightface_threshold
      if pyTruthy r.1 then
        { t1 with
          recognized_employee_id := r.1
          recognition_confidence := r.2 }
      else t1
  else t1

/-- One iteration of the `for face in faces` loop of `FaceTracker.update`. -/
def processFace (cfg : TrackerConfig) (now : ℚ) (oracle : FrameOracle)
    (known_embeddings : List (List ℚ)) (known_ids : List Int)
    (s : StepState) (face : Face) : StepState :=
  if oracle.cropOk face = false then s
  else if (oracle.assess face).1 = false then s
  else
    let quality := (oracle.assess face).2
    match findMatchingTrack cfg s.tracks s.matched face.bbox with
    | some i =>
      match s.tracks[i]? with
      | none => s
      | some best_track =>
        let t1 := best_track.add_embedding face.normed_embedding quality face.bbox now
        { tracks := s.tracks.set i (resolveTrack cfg known_embeddings known_ids t1)
          matched := best_track.track_id :: s.matched
          next_track_id := s.next_track_id }
    | none =>
      let new_track :=
        (FaceTrack.mk0 s.next_track_id now).add_embedding face.normed_embedding
          quality face.bbox now
      { tracks := s.tracks ++ [new_track]
        matched := s.matched
        next_track_id := s.next_track_id + 1 }

/-- The persistent state of a `FaceTracker` between `update` calls. -/
structure TrackerState where
  tracks : List FaceTrack
  next_track_id : Nat

/-- `FaceTracker.__init__`: no tracks, `next_track_id = 1`. -/
def TrackerState.init : TrackerState :=
  ⟨[], 1⟩

/-- `FaceTracker.update` from `src/recognition/tracker.py`: drop dead
tracks, run the per-face loop, and return the new state together with the
returned list `[t for t in self.tracks if t.recognized_employee_id is not
None]`. -/
def FaceTracker.update (cfg : TrackerConfig) (st : TrackerState) (now : ℚ)
    (faces : List Face) (oracle : FrameOracle)
    (known_embeddings : List (List ℚ)) (known_ids : List Int) :
    TrackerState × List FaceTrack :=
  let live := st.tracks.filter (fun t => t.is_alive cfg now)
  let s1 := faces.foldl (processFace cfg now oracle known_embeddings known_ids)
    ⟨live, [], st.next_track_id⟩
  (⟨s1.tracks, s1.next_track_id⟩,
   s1.tracks.filter (fun t => t.recognized_employee_id ≠ none))

/-- The arguments of one `FaceTracker.update` call (the config is fixed at
tracker construction). -/
structure UpdateArgs where
  now : ℚ
  faces : List Face
  oracle : FrameOracle
  known_embeddings : List (List ℚ)
  known_ids : List Int

/-- A sequence of `update` calls applied to a tracker state. -/
def applyUpdates (cfg : TrackerConfig) (st : TrackerState) :
    List UpdateArgs → TrackerState
  | [] => st
  | a :: rest =>
    applyUpdates cfg
      (FaceTracker.update cfg st a.now a.faces a.oracle a.known_embeddings a.known_ids).1
      rest

/-- Well-formedness of a tracker state: distinct track ids, all below
`next_track_id`.  Holds in every reachable state. -/
def TrackerState.WF (st : TrackerState) : Prop :=
  (st.tracks.map FaceTrack.track_id).Nodup ∧
    ∀ t ∈ st.tracks, t.track_id < st.next_track_id

/-- Tracker states reachable from `FaceTracker.__init__` through `update`
calls. -/
inductive TrackerReachable (cfg : TrackerConfig) : TrackerState → Prop
  | init : TrackerReachable cfg TrackerState.init
  | step {st : TrackerState} (a : UpdateArgs) :
      TrackerReachable cfg st →
      TrackerReachable cfg
        (FaceTracker.update cfg st a.now a.faces a.oracle a.known_embeddings a.known_ids).1

/-! ## Camera connection (`src/camera.py`) -/

/-- The retry loop of `connect_camera`, starting at a given attempt index.
`attemptOk a` tells whether attempt `a` succeeds (the capture opens,
`isOpened()` holds and a frame is read); the open/verify step itself only
touches external devices, so it is an oracle.  Returns
`(attempts made, sleeps performed in seconds, success)`; an unsuccessful
result corresponds to `raise RuntimeError(...)` in the source. -/
def connectAux (max_retries : Nat) (attemptOk : Nat → Bool) (attempt : Nat) :
    Nat × List Nat × Bool :=
  if attempt < max_retries then
    if attemptOk attempt then (attempt + 1, [], true)
    else
      let waits := if attempt < max_retries - 1 then [2 ^ attempt] else []
      let r := connectAux max_retries attemptOk (attempt + 1)
      (r.1, waits ++ r.2.1, r.2.2)
  else (attempt, [], false)
termination_by max_retries - attempt

/-- `connect_camera` from `src/camera.py`: the loop
`for attempt in range(max_retries)` begins at attempt `0`. -/
def connect_camera (max_retries : Nat) (attemptOk : Nat → Bool) :
    Nat × List Nat × Bool :=
  connectAux max_retries attemptOk 0

/-! ## MJPEG stream reading (`src/camera.py`, `MJPEGStreamCapture.read`) -/

/-- The JPEG start-of-image marker bytes `\xff\xd8`. -/
def jpeg_start : List Nat := [255, 216]

/-- The JPEG end-of-image marker bytes `\xff\xd9`. -/
def jpeg_end : List Nat := [255, 217]

/-- `bytes.find`: index of the first occurrence of `pat` as a contiguous
subsequence, `none` when absent (Python returns `-1`). -/
def findSub (pat : List Nat) : List Nat → Option Nat
  | [] => if pat.isPrefixOf ([] : List Nat) then some 0 else none
  | x :: xs =>
    if pat.isPrefixOf (x :: xs) then some 0 else (findSub pat xs).map (· + 1)

/-- The guard `start != -1 and end != -1 and end > start` of
`MJPEGStreamCapture.read` on a buffer. -/
def bufferHasFrame (b : List Nat) : Bool :=
  match findSub jpeg_start b, findSub jpeg_end b with
  | some s, some e => s < e
  | _, _ => false

/-- The 10 MiB buffer cap of `MJPEGStreamCapture.read`
(`10 * 1024 * 1024`). -/
def mjpeg_buffer_cap : Nat := 10 * 1024 * 1024

/-- `MJPEGStreamCapture.read`.  The HTTP chunk iterator is modelled as a
list: `.ok c` is a chunk of bytes, `.error` a chunk whose retrieval raises
(the surrounding `try` turns it into `(False, None)`), and an exhausted
list models `next(self._stream, None)` returning `None`.  `imdecode`
models `cv2.imdecode`; `none` is a failed decode.  Returns
`(success, frame, retained buffer)`. -/
def mjpegRead {α : Type} (imdecode : List Nat → Option α) :
    List (Except Unit (List Nat)) → List Nat → Bool × Option α × List Nat
  | [], buffer => (false, none, buffer)
  | .error _ :: _, buffer => (false, none, buffer)
  | .ok chunk :: rest, buffer =>
    let b := buffer ++ chunk
    match findSub jpeg_start b, findSub jpeg_end b with
    | some s, some e =>
      if s < e then
        let jpg := (b.take (e + 2)).drop s
        let b2 := b.drop (e + 2)
        match imdecode jpg with
        | some frame => (true, some frame, b2)
        | none => mjpegRead imdecode rest (if mjpeg_buffer_cap < b2.length then [] else b2)
      else mjpegRead imdecode rest (if mjpeg_buffer_cap < b.length then [] else b)
    | _, _ => mjpegRead imdecode rest (if mjpeg_buffer_cap < b.length then [] else b)

/-! ## Multi-camera orchestrator (`src/multi_camera_manager.py`) -/

/-- One camera dict of the fetched roster (`id`, `name`, `streamUrl`;
further keys are not read by the manager). -/
structure Camera where
  id : Nat
  name : String
  streamUrl : String
  deriving Repr, DecidableEq

/-- A `CameraThread` worker as the manager sees it: its id, the camera data
it was created with, whether its thread is alive at sync time, and a
creation stamp distinguishing distinct thread objects (Python object
identity). -/
structure CameraThread where
  camera_id : Nat
  camera_data : Camera
  alive : Bool
  token : Nat
  deriving Repr, DecidableEq

/-- Externally visible orchestrator actions: joining and discarding a
worker thread (`CameraThread.stop`), and creating and starting one
(`CameraThread.start`). -/
inductive SyncAction where
  | stop (camera_id : Nat)
  | start (camera_id : Nat)
  deriving Repr, DecidableEq

/-- `MultiCameraManager.get_company_cameras`: the HTTP fetch either yields
a roster or raises; every raise is caught and becomes an empty list. -/
def get_company_cameras (fetch : Except String (List Camera)) : List Camera :=
  match fetch with
  | .ok cameras => cameras
  | .error _ => []

/-- `MultiCameraManager.stop_camera`: no-op when the id is unknown,
otherwise stop the worker and delete its entry. -/
def stop_camera (threads : List (Nat × CameraThread)) (camera_id : Nat) :
    List (Nat × CameraThread) × List SyncAction :=
  match threads.lookup camera_id with
  | none => (threads, [])
  | some _ =>
    (threads.filter (fun p => p.1 ≠ camera_id), [SyncAction.stop camera_id])

/-- `MultiCameraManager.start_camera`: an alive worker for the id is left
untouched; a dead one is deleted and replaced; an unknown id gets a fresh
worker.  `fresh` is the next creation stamp.  Re-inserting after `del`
appends at the end of the dict order. -/
def start_camera (threads : List (Nat × CameraThread)) (camera : Camera)
    (fresh : Nat) : List (Nat × CameraThread) × Nat × List SyncAction :=
  match threads.lookup camera.id with
  | some ct =>
    if ct.alive then (threads, fresh, [])
    else
      ((threads.filter (fun p => p.1 ≠ camera.id)) ++
          [(camera.id, ⟨camera.id, camera, true, fresh⟩)],
        fresh + 1, [SyncAction.start camera.id])
  | none =>
    (threads ++ [(camera.id, ⟨camera.id, camera, true, fresh⟩)],
      fresh + 1, [SyncAction.start camera.id])

/-- `MultiCameraManager.sync_cameras`: fetch the roster, stop workers whose
id is no longer listed, then run `start_camera` for every listed camera.
Returns the new worker dict, the next creation stamp, and the actions
performed in order. -/
def sync_cameras (threads : List (Nat × CameraThread)) (fresh : Nat)
    (fetch : Except String (List Camera)) :
    List (Nat × CameraThread) × Nat × List SyncAction :=
  let current_cameras := get_company_cameras fetch
  let current_ids := current_cameras.map Camera.id
  let running_ids := threads.map Prod.fst
  let toStop := running_ids.filter (fun camera_id => camera_id ∉ current_ids)
  let stopped := toStop.foldl
    (fun acc camera_id =>
      let r := stop_camera acc.1 camera_id
      (r.1, acc.2 ++ r.2)) (threads, ([] : List SyncAction))
  let started := current_cameras.foldl
    (fun acc camera =>
      let r := start_camera acc.1 camera acc.2.1
      (r.1, r.2.1, acc.2.2 ++ r.2.2)) (stopped.1, fresh, ([] : List SyncAction))
  (started.1, started.2.1, stopped.2 ++ started.2.2)

/-! ## Theorems -/

/-- Prepending the wait of the current attempt to the waits of the later
attempts gives the waits of all attempts. -/
theorem waits_step (attempt k : Nat) :
    2 ^ attempt :: (List.range k).map (fun i => 2 ^ (attempt + 1 + i)) =
      (List.range (k + 1)).map (fun i => 2 ^ (attempt + i)) := by
  rw [List.range_succ_eq_map]
  simp only [List.map_cons, Nat.add_zero, List.map_map]
  congr 1
  apply List.map_congr_left
  intro i _
  simp only [Function.comp_apply]
  congr 1
  omega

/-- Value of the retry loop when every attempt fails, from any starting
attempt index. -/
theorem connectAux_fail (attemptOk : Nat → Bool) (hfail : ∀ a, attemptOk a = false)
    (max_retries : Nat) :
    ∀ fuel attempt, max_retries ≤ attempt + fuel →
      connectAux max_retries attemptOk attempt =
        (max max_retries attempt,
         (List.range (max_retries - 1 - attempt)).map (fun i => 2 ^ (attempt + i)),
         false) := by
  intro fuel
  induction fuel with
  | zero =>
    intro attempt h
    unfold connectAux
    rw [if_neg (by omega)]
    have h1 : max max_retries attempt = attempt := by omega
    have h2 : max_retries - 1 - attempt = 0 := by omega
    rw [h1, h2]
    simp
  | succ n ih =>
    intro attempt h
    by_cases hlt : attempt < max_retries
    · unfold connectAux
      rw [if_pos hlt, hfail attempt]
      simp only [Bool.false_eq_true, if_false]
      rw [ih (attempt + 1) (by omega)]
      have hmax : max max_retries (attempt + 1) = max_retries := by omega
      have hmax2 : max max_retries attempt = max_retries := by omega
      rw [hmax, hmax2]
      by_cases hlast : attempt < max_retries - 1
      · rw [if_pos hlast]
        have hk : max_retries - 1 - attempt = (max_retries - 1 - (attempt + 1)) + 1 := by
          omega
        rw [hk, ← waits_step attempt (max_retries - 1 - (attempt + 1))]
        simp
      · rw [if_neg hlast]
        have hk : max_retries - 1 - attempt = 0 := by omega
        have hk2 : max_retries - 1 - (attempt + 1) = 0 := by omega
        rw [hk, hk2]
        simp
    · unfold connectAux
      rw [if_neg hlt]
      have h1 : max max_retries attempt = attempt := by omega
      have h2 : max_retries - 1 - attempt = 0 := by omega
      rw [h1, h2]
      simp

/-- C7: with `maxRetries ≥ 1` and a source whose open-or-verification step
always fails, `connect_camera` makes exactly `maxRetries` attempts, sleeps
`2^attempt` seconds after every failed attempt except the last, and ends in
failure (the `raise RuntimeError`); it never retries beyond `maxRetries`
(the loop is a total function of the attempt oracle). -/
theorem connect_camera_always_fail (max_retries : Nat) (attemptOk : Nat → Bool)
    (hmax : 1 ≤ max_retries) (hfail : ∀ a, attemptOk a = false) :
    connect_camera max_retries attemptOk =
      (max_retries, (List.range (max_retries - 1)).map (fun i => 2 ^ i), false) := by
  unfold connect_camera
  rw [connectAux_fail attemptOk hfail max_retries max_retries 0 (by omega)]
  have h1 : max max_retries 0 = max_retries := by omega
  rw [h1]
  simp

/-- Witness for C7: `maxRetries = 3` gives exactly 3 attempts, sleeps of 1s
then 2s, and a failure result. -/
theorem connect_camera_always_fail_witness :
    1 ≤ 3 ∧ connect_camera 3 (fun _ => false) = (3, [1, 2], false) :=
  ⟨by norm_num, by
    have h := connect_camera_always_fail 3 (fun _ => false) (by norm_num) (fun a => rfl)
    simpa using h⟩

/-- C8: `MJPEGStreamCapture.read` is safe: an exhausted stream or a chunk
retrieval that raises yields the failure result `(False, None)` instead of
an escaping exception, and whenever the accumulated buffer exceeds the
10 MiB cap without containing a complete JPEG frame the whole buffer is
discarded before further accumulation (the recursive call continues with an
empty buffer). -/
theorem mjpeg_read_safety {α : Type} (imdecode : List Nat → Option α) :
    (∀ buffer, mjpegRead imdecode [] buffer = (false, none, buffer)) ∧
    (∀ e rest buffer,
      mjpegRead imdecode (Except.error e :: rest) buffer = (false, none, buffer)) ∧
    (∀ chunk rest buffer, bufferHasFrame (buffer ++ chunk) = false →
      mjpeg_buffer_cap < (buffer ++ chunk).length →
      mjpegRead imdecode (Except.ok chunk :: rest) buffer =
        mjpegRead imdecode rest []) := by
  refine ⟨fun buffer => rfl, fun e rest buffer => rfl, ?_⟩
  intro chunk rest buffer hframe hlen
  rw [mjpegRead]
  rcases hs : findSub jpeg_start (buffer ++ chunk) with _ | s
  · simp only [hs, if_pos hlen]
  · rcases he : findSub jpeg_end (buffer ++ chunk) with _ | e
    · simp only [hs, he, if_pos hlen]
    · have hlt : ¬ s < e := by
        intro hcon
        rw [bufferHasFrame, hs, he] at hframe
        simp [hcon] at hframe
      simp only [hs, he, if_neg hlt, if_pos hlen]

/-- `bytes.find` misses a pattern starting with a byte absent from the
buffer. -/
theorem findSub_consNe (p : Nat) (pat xs : List Nat) (x : Nat) (hx : p ≠ x) :
    findSub (p :: pat) (x :: xs) = (findSub (p :: pat) xs).map (· + 1) := by
  rw [findSub, if_neg]
  intro hpre
  simp only [List.isPrefixOf, Bool.and_eq_true, beq_iff_eq] at hpre
  exact hx hpre.1

/-- A buffer of zero bytes contains no pattern starting with a nonzero
byte. -/
theorem findSub_replicate_zero (pat : List Nat) (p : Nat) (hp : p ≠ 0) :
    ∀ n, findSub (p :: pat) (List.replicate n 0) = none := by
  intro n
  induction n with
  | zero => rw [List.replicate_zero, findSub, if_neg] ; intro hpre ; simp [List.isPrefixOf] at hpre
  | succ k ih => rw [List.replicate_succ, findSub_consNe p pat _ 0 hp, ih] ; rfl

/-- A buffer of zero bytes contains no complete JPEG frame. -/
theorem bufferHasFrame_replicate_zero (n : Nat) :
    bufferHasFrame (List.replicate n 0) = false := by
  rw [bufferHasFrame]
  rw [show jpeg_start = 255 :: [216] from rfl, show jpeg_end = 255 :: [217] from rfl]
  rw [findSub_replicate_zero _ 255 (by norm_num) n]

/-- Witness for C8: a single oversized markerless chunk (10 MiB + 1 of zero
bytes) is discarded entirely, and the exhausted stream then reports
failure with an empty retained buffer. -/
theorem mjpeg_read_safety_witness :
    bufferHasFrame (List.replicate (mjpeg_buffer_cap + 1) 0) = false ∧
    mjpeg_buffer_cap < (List.replicate (mjpeg_buffer_cap + 1) 0).length ∧
    mjpegRead (fun _ => (none : Option Unit))
        [Except.ok (List.replicate (mjpeg_buffer_cap + 1) 0)] [] =
      (false, none, []) := by
  refine ⟨bufferHasFrame_replicate_zero _, by simp, ?_⟩
  have h := (mjpeg_read_safety (fun _ => (none : Option Unit))).2.2
    (List.replicate (mjpeg_buffer_cap + 1) 0) [] []
    (by simpa using bufferHasFrame_replicate_zero (mjpeg_buffer_cap + 1))
    (by simp)
  rw [h]
  exact (mjpeg_read_safety (fun _ => (none : Option Unit))).1 []

/-- A key that `lookup` misses belongs to no entry. -/
theorem lookup_none_key {β : Type} (l : List (Nat × β)) (k : Nat)
    (h : l.lookup k = none) : ∀ p ∈ l, p.1 ≠ k := by
  induction l with
  | nil => intro p hp; exact absurd hp (List.not_mem_nil p)
  | cons hd tl ih =>
    intro p hp
    rw [List.lookup] at h
    rcases hb : (k == hd.1) with _ | _
    · rw [hb] at h
      rcases List.mem_cons.mp hp with hph | hpt
      · subst hph
        intro hk
        rw [hk] at hb
        simp at hb
      · exact ih h p hpt
    · rw [hb] at h
      simp at h

/-- Folding `stop_camera` over a list of ids covering every key empties the
worker dict. -/
theorem foldl_stop_all (ids : List Nat) :
    ∀ (threads : List (Nat × CameraThread)) (acc : List SyncAction),
      (∀ p ∈ threads, p.1 ∈ ids) →
      (ids.foldl
        (fun acc camera_id =>
          let r := stop_camera acc.1 camera_id
          (r.1, acc.2 ++ r.2)) (threads, acc)).1 = [] := by
  induction ids with
  | nil =>
    intro threads acc h
    have hnil : threads = [] := by
      cases threads with
      | nil => rfl
      | cons hd tl => exact absurd (h hd (List.mem_cons_self hd tl)) (List.not_mem_nil hd.1)
    subst hnil
    rfl
  | cons camera_id rest ih =>
    intro threads acc h
    rw [List.foldl_cons]
    apply ih
    intro p hp
    rcases hl : threads.lookup camera_id with _ | ct
    · simp only [stop_camera, hl] at hp
      rcases List.mem_cons.mp (h p hp) with hph | hpt
      · exact absurd hph (lookup_none_key threads camera_id hl p hp)
      · exact hpt
    · simp only [stop_camera, hl] at hp
      have hmem := List.mem_of_mem_filter hp
      have hne := List.of_mem_filter hp
      rcases List.mem_cons.mp (h p hmem) with hph | hpt
      · simp [hph] at hne
      · exact hpt

/-- A demo camera record. -/
def cam1 : Camera := ⟨1, "entrance", "rtsp://cam-entrance"⟩

/-- A demo camera record. -/
def cam2 : Camera := ⟨2, "lobby", "rtsp://cam-lobby"⟩

/-- A demo camera record. -/
def cam3 : Camera := ⟨3, "parking", "rtsp://cam-parking"⟩

/-- A demo running worker for camera 1. -/
def thread1 : CameraThread := ⟨1, cam1, true, 0⟩

/-- A demo running worker for camera 2. -/
def thread2 : CameraThread := ⟨2, cam2, true, 1⟩

/-- C1 (code bug): when the roster fetch raises, `get_company_cameras`
returns `[]`, and `sync_cameras` treats the failure as an empty roster: it
stops every running worker instead of leaving the worker set untouched.
First conjunct: after any failed-fetch cycle the worker dict is empty.
Second conjunct: with workers for cameras 1 and 2 running, a failed fetch
stops and removes both. -/
theorem sync_fetch_failure_stops_all :
    (∀ (threads : List (Nat × CameraThread)) (fresh : Nat) (e : String),
      (sync_cameras threads fresh (Except.error e)).1 = []) ∧
    sync_cameras [(1, thread1), (2, thread2)] 2 (Except.error "connection error") =
      ([], 2, [SyncAction.stop 1, SyncAction.stop 2]) := by
  constructor
  · intro threads fresh e
    show (sync_cameras threads fresh (Except.error e)).1 = []
    unfold sync_cameras get_company_cameras
    simp only [List.map_nil, List.not_mem_nil, not_false_iff, decide_True,
      List.filter_true, List.foldl_nil]
    exact foldl_stop_all (threads.map Prod.fst) threads []
      (fun p hp => List.mem_map_of_mem Prod.fst hp)
  · rfl

/-- C9: orchestrator sync with running workers `{1, 2}` and fetched roster
`{2, 3}`: the worker for camera 1 is stopped and removed, a fresh worker is
created and started for camera 3, and the alive worker for camera 2 is left
untouched (the same worker object remains, with no action taken on it). -/
theorem sync_roster_swap (w1 w2 : CameraThread) (c2 c3 : Camera) (fresh : Nat)
    (hc2 : c2.id = 2) (hc3 : c3.id = 3) (halive : w2.alive = true) :
    sync_cameras [(1, w1), (2, w2)] fresh (Except.ok [c2, c3]) =
      ([(2, w2), (3, ⟨3, c3, true, fresh⟩)], fresh + 1,
       [SyncAction.stop 1, SyncAction.start 3]) := by
  unfold sync_cameras get_company_cameras stop_camera start_camera
  simp [hc2, hc3, halive, List.lookup]

/-- Witness for C9 at concrete workers and cameras. -/
theorem sync_roster_swap_witness :
    cam2.id = 2 ∧ cam3.id = 3 ∧ thread2.alive = true ∧
    sync_cameras [(1, thread1), (2, thread2)] 5 (Except.ok [cam2, cam3]) =
      ([(2, thread2), (3, ⟨3, cam3, true, 5⟩)], 6,
       [SyncAction.stop 1, SyncAction.start 3]) :=
  ⟨rfl, rfl, rfl, sync_roster_swap thread1 thread2 cam2 cam3 5 rfl rfl rfl⟩

/-- `pass1entry` preserves the entry key. -/
theorem pass1entry_fst (now : ℚ) (D : List Nat) (p : Nat × EmpState) :
    (pass1entry now D p).1 = p.1 := by
  unfold pass1entry
  split <;> rfl

/-- `stepEntry` preserves the entry key. -/
theorem stepEntry_fst (cfg : PresenceConfig) (now : ℚ) (D : List Nat)
    (p : Nat × EmpState) : ((stepEntry cfg now D p).1).1 = p.1 := by
  rcases p with ⟨k, s⟩
  unfold stepEntry
  dsimp only
  split <;> split <;> rfl

/-- `stepEntry` never changes `last_seen`. -/
theorem stepEntry_last_seen (cfg : PresenceConfig) (now : ℚ) (D : List Nat)
    (p : Nat × EmpState) : ((stepEntry cfg now D p).1).2.last_seen = p.2.last_seen := by
  rcases p with ⟨k, s⟩
  unfold stepEntry
  dsimp only
  split <;> split <;> rfl

/-- Every event emitted by `stepEntry` carries the entry's key. -/
theorem stepEntry_events_fst (cfg : PresenceConfig) (now : ℚ) (D : List Nat)
    (p : Nat × EmpState) : ∀ q ∈ (stepEntry cfg now D p).2, q.1 = p.1 := by
  rcases p with ⟨k, s⟩
  unfold stepEntry
  dsimp only
  split <;> split <;> intro q hq <;>
    simp only [List.mem_singleton, List.not_mem_nil] at hq <;>
    subst hq <;> rfl

/-- Filtering for a key that every element carries keeps the list. -/
theorem filter_keys_eq (e : Nat) (l : List (Nat × Ev)) (h : ∀ q ∈ l, q.1 = e) :
    l.filter (fun q => q.1 == e) = l := by
  apply List.filter_eq_self.mpr
  intro q hq
  rw [h q hq]
  exact beq_self_eq_true e

/-- Filtering for a key that no element carries empties the list. -/
theorem filter_keys_ne (e : Nat) (l : List (Nat × Ev)) (h : ∀ q ∈ l, q.1 ≠ e) :
    l.filter (fun q => q.1 == e) = [] := by
  apply List.filter_eq_nil_iff.mpr
  intro q hq
  simp only [beq_eq_false_iff_ne, ne_eq, Bool.not_eq_true]
  simp [h q hq]

/-- Events of entries whose keys avoid `e` contribute nothing to the filter
for `e`. -/
theorem events_filter_absent (cfg : PresenceConfig) (now : ℚ) (D : List Nat)
    (e : Nat) (tl : List (Nat × EmpState)) (htl : e ∉ tl.map Prod.fst) :
    ((tl.map (pass1entry now D)).map
        (fun p => (stepEntry cfg now D p).2)).flatten.filter
      (fun q => q.1 == e) = [] := by
  apply filter_keys_ne
  intro q hq
  rcases List.mem_flatten.mp hq with ⟨l, hl, hql⟩
  rcases List.mem_map.mp hl with ⟨p1, hp1, rfl⟩
  rcases List.mem_map.mp hp1 with ⟨p0, hp0, rfl⟩
  have hk := stepEntry_events_fst cfg now D (pass1entry now D p0) q hql
  rw [hk, pass1entry_fst]
  intro hcon
  exact htl (hcon ▸ List.mem_map_of_mem Prod.fst hp0)

/-- Characterization of `PresenceManager.update` at one tracked employee:
with distinct keys, the updated state at `e` and the events filtered to `e`
are exactly the output of the two per-entry passes on `e`'s entry. -/
theorem update_char (cfg : PresenceConfig) (now : ℚ) (D : List Nat) :
    ∀ (st : List (Nat × EmpState)) (e : Nat) (s : EmpState),
      (st.map Prod.fst).Nodup → st.lookup e = some s →
      (PresenceManager.update cfg now D st).1.lookup e =
          some ((stepEntry cfg now D (pass1entry now D (e, s))).1).2 ∧
      (PresenceManager.update cfg now D st).2.filter (fun q => q.1 == e) =
          (stepEntry cfg now D (pass1entry now D (e, s))).2 := by
  intro st
  induction st with
  | nil =>
    intro e s _ hl
    simp [List.lookup] at hl
  | cons hd tl ih =>
    intro e s hnodup hl
    rcases hd with ⟨k, sk⟩
    rw [List.lookup] at hl
    rcases hek : (e == k) with _ | _
    · -- e ≠ k : recurse into the tail
      rw [hek] at hl
      have hne : e ≠ k := by
        intro hcon
        rw [hcon] at hek
        simp at hek
      have htail := ih e s (List.Nodup.of_cons hnodup) hl
      unfold PresenceManager.update at htail ⊢
      simp only [List.map_cons, List.flatten_cons, List.lookup, List.filter_append]
      constructor
      · have hkfst : ((stepEntry cfg now D (pass1entry now D (k, sk))).1).1 = k := by
          rw [stepEntry_fst, pass1entry_fst]
        rw [hkfst, hek]
        exact htail.1
      · have hhd : (stepEntry cfg now D (pass1entry now D (k, sk))).2.filter
            (fun q => q.1 == e) = [] := by
          apply filter_keys_ne
          intro q hq
          have hk2 := stepEntry_events_fst cfg now D (pass1entry now D (k, sk)) q hq
          rw [hk2, pass1entry_fst]
          exact fun hcon => hne hcon.symm
        rw [hhd, List.nil_append]
        exact htail.2
    · -- e = k : this is our entry
      rw [hek] at hl
      have hke : e = k := by
        have := of_decide_eq_true (by simpa using hek)
        exact this
      injection hl with hl
      subst hke
      subst hl
      unfold PresenceManager.update
      simp only [List.map_cons, List.flatten_cons, List.lookup, List.filter_append]
      have hkfst : ((stepEntry cfg now D (pass1entry now D (e, sk))).1).1 = e := by
        rw [stepEntry_fst, pass1entry_fst]
      constructor
      · rw [hkfst]
        simp
      · have hhd : (stepEntry cfg now D (pass1entry now D (e, sk))).2.filter
            (fun q => q.1 == e) = (stepEntry cfg now D (pass1entry now D (e, sk))).2 := by
          apply filter_keys_eq
          intro q hq
          have hk2 := stepEntry_events_fst cfg now D (pass1entry now D (e, sk)) q hq
          rw [hk2, pass1entry_fst]
        rw [hhd]
        have htlkeys : e ∉ tl.map Prod.fst := by
          rw [List.map_cons] at hnodup
          exact (List.nodup_cons.mp hnodup).1
        rw [events_filter_absent cfg now D e tl htlkeys, List.append_nil]

/-- C2: the debounce rule of `PresenceManager.update`, for any tracked
identity `e` (state keys distinct).  If `e` is detected, absent, and
`now - lastStateChange` exceeds the IN threshold, `e` flips to present with
`lastStateChange = now` and exactly one IN event for `e` is emitted; if `e`
is undetected, present, and `now - lastSeen` exceeds the OUT threshold, `e`
flips to absent with `lastStateChange = now` and exactly one OUT event for
`e` is emitted; in every other case no event for `e` is emitted and `e`'s
present flag is unchanged. -/
theorem presence_update_debounce (cfg : PresenceConfig) (now : ℚ) (D : List Nat)
    (st : List (Nat × EmpState)) (e : Nat) (s : EmpState)
    (hnodup : (st.map Prod.fst).Nodup) (hs : st.lookup e = some s) :
    ((e ∈ D ∧ s.present = false ∧
        cfg.in_threshold_seconds < now - s.last_state_change) →
      (PresenceManager.update cfg now D st).1.lookup e = some ⟨true, now, now⟩ ∧
      (PresenceManager.update cfg now D st).2.filter (fun q => q.1 == e) =
        [(e, Ev.IN)]) ∧
    ((e ∉ D ∧ s.present = true ∧
        cfg.out_threshold_seconds < now - s.last_seen) →
      (PresenceManager.update cfg now D st).1.lookup e =
        some ⟨false, s.last_seen, now⟩ ∧
      (PresenceManager.update cfg now D st).2.filter (fun q => q.1 == e) =
        [(e, Ev.OUT)]) ∧
    (¬(e ∈ D ∧ s.present = false ∧
        cfg.in_threshold_seconds < now - s.last_state_change) →
     ¬(e ∉ D ∧ s.present = true ∧
        cfg.out_threshold_seconds < now - s.last_seen) →
      (PresenceManager.update cfg now D st).2.filter (fun q => q.1 == e) = [] ∧
      ∃ s2, (PresenceManager.update cfg now D st).1.lookup e = some s2 ∧
        s2.present = s.present) := by
  have hchar := update_char cfg now D st e s hnodup hs
  refine ⟨?_, ?_, ?_⟩
  · rintro ⟨hD, hpres, hthr⟩
    have hp1 : pass1entry now D (e, s) = (e, { s with last_seen := now }) := by
      unfold pass1entry
      rw [if_pos hD]
    rw [hp1] at hchar
    have hstep : stepEntry cfg now D (e, { s with last_seen := now }) =
        ((e, ⟨true, now, now⟩), [(e, Ev.IN)]) := by
      unfold stepEntry
      dsimp only
      rw [if_pos hD, if_pos (show _ ∧ _ from ⟨hpres, hthr⟩)]
    rw [hstep] at hchar
    exact hchar
  · rintro ⟨hD, hpres, hthr⟩
    have hp1 : pass1entry now D (e, s) = (e, s) := by
      unfold pass1entry
      rw [if_neg hD]
    rw [hp1] at hchar
    have hstep : stepEntry cfg now D (e, s) =
        ((e, ⟨false, s.last_seen, now⟩), [(e, Ev.OUT)]) := by
      unfold stepEntry
      dsimp only
      rw [if_neg hD, if_pos (show _ ∧ _ from ⟨hpres, hthr⟩)]
    rw [hstep] at hchar
    exact hchar
  · intro hno_in hno_out
    by_cases hD : e ∈ D
    · have hp1 : pass1entry now D (e, s) = (e, { s with last_seen := now }) := by
        unfold pass1entry
        rw [if_pos hD]
      rw [hp1] at hchar
      have hcond : ¬(s.present = false ∧
          cfg.in_threshold_seconds < now - s.last_state_change) := by
        intro hcon
        exact hno_in ⟨hD, hcon.1, hcon.2⟩
      have hstep : stepEntry cfg now D (e, { s with last_seen := now }) =
          ((e, { s with last_seen := now }), []) := by
        unfold stepEntry
        dsimp only
        rw [if_pos hD, if_neg hcond]
      rw [hstep] at hchar
      exact ⟨hchar.2, ⟨{ s with last_seen := now }, hchar.1, rfl⟩⟩
    · have hp1 : pass1entry now D (e, s) = (e, s) := by
        unfold pass1entry
        rw [if_neg hD]
      rw [hp1] at hchar
      have hcond : ¬(s.present = true ∧
          cfg.out_threshold_seconds < now - s.last_seen) := by
        intro hcon
        exact hno_out ⟨hD, hcon.1, hcon.2⟩
      have hstep : stepEntry cfg now D (e, s) = ((e, s), []) := by
        unfold stepEntry
        dsimp only
        rw [if_neg hD, if_neg hcond]
      rw [hstep] at hchar
      exact ⟨hchar.2, ⟨s, hchar.1, rfl⟩⟩

/-- Witness for C2: employee 5, absent since time 0, detected at time 3
with IN threshold 1, flips to present and emits exactly one IN event. -/
theorem presence_update_debounce_witness :
    (5 : Nat) ∈ [5] ∧
    (PresenceManager.update ⟨1, 10⟩ 3 [5] [(5, ⟨false, 0, 0⟩)]).1.lookup 5 =
      some ⟨true, 3, 3⟩ ∧
    (PresenceManager.update ⟨1, 10⟩ 3 [5] [(5, ⟨false, 0, 0⟩)]).2.filter
      (fun q => q.1 == 5) = [(5, Ev.IN)] := by
  refine ⟨by simp, ?_⟩
  have h := (presence_update_debounce ⟨1, 10⟩ 3 [5] [(5, ⟨false, 0, 0⟩)] 5
    ⟨false, 0, 0⟩ (by simp) rfl).1
  exact h ⟨by simp, rfl, by norm_num⟩

/-- C4 (amended): for every *tracked* identity `e`, `update` sets
`lastSeen` to `now` exactly when `e` is detected (regardless of the present
flag) and leaves it unchanged otherwise; hence, with a non-decreasing
clock, `lastSeen` never decreases across calls. -/
theorem presence_last_seen (cfg : PresenceConfig) (now : ℚ) (D : List Nat)
    (st : List (Nat × EmpState)) (e : Nat) (s : EmpState)
    (hnodup : (st.map Prod.fst).Nodup) (hs : st.lookup e = some s) :
    ((PresenceManager.update cfg now D st).1.lookup e).map EmpState.last_seen =
      some (if e ∈ D then now else s.last_seen) ∧
    (s.last_seen ≤ now →
      s.last_seen ≤ if e ∈ D then now else s.last_seen) := by
  have hchar := update_char cfg now D st e s hnodup hs
  constructor
  · rw [hchar.1, Option.map_some']
    rw [stepEntry_last_seen]
    by_cases hD : e ∈ D
    · rw [if_pos hD]
      unfold pass1entry
      rw [if_pos hD]
    · rw [if_neg hD]
      unfold pass1entry
      rw [if_neg hD]
  · intro hle
    by_cases hD : e ∈ D
    · rw [if_pos hD]
      exact hle
    · rw [if_neg hD]

/-- Counterexample for C4 as stated: a detected identity that was never
registered (state dict empty) gets no state entry at all, so its `lastSeen`
is not set to the current time by the call. -/
theorem presence_untracked_counterexample :
    (PresenceManager.update ⟨1, 10⟩ 3 [5] []).1 = [] ∧
    (PresenceManager.update ⟨1, 10⟩ 3 [5] []).1.lookup 5 = none :=
  ⟨rfl, rfl⟩

/-- Witness for the amended C4: tracked employee 5, detected at time 3,
has `lastSeen` set to 3 whatever its present flag was. -/
theorem presence_last_seen_witness :
    ((PresenceManager.update ⟨1, 10⟩ 3 [5] [(5, ⟨true, 2, 0⟩)]).1.lookup 5).map
        EmpState.last_seen = some (if (5 : Nat) ∈ [5] then (3 : ℚ) else 2) ∧
    ((2 : ℚ) ≤ 3 → (2 : ℚ) ≤ if (5 : Nat) ∈ [5] then (3 : ℚ) else 2) :=
  presence_last_seen ⟨1, 10⟩ 3 [5] [(5, ⟨true, 2, 0⟩)] 5 ⟨true, 2, 0⟩
    (by simp) rfl

/-- `np_argmax` returns an index inside the list. -/
theorem np_argmax_lt_length : ∀ (l : List ℚ), l ≠ [] → np_argmax l < l.length := by
  intro l
  induction l with
  | nil => intro h; exact absurd rfl h
  | cons x xs ih =>
    intro _
    cases xs with
    | nil => simp [np_argmax]
    | cons y ys =>
      simp only [np_argmax]
      split
      · have h := ih (by simp)
        simpa using Nat.succ_lt_succ h
      · simp

/-- The element at `np_argmax` dominates every element of the list. -/
theorem np_argmax_le (l : List ℚ) :
    ∀ j, j < l.length → l.getD j 0 ≤ l.getD (np_argmax l) 0 := by
  induction l with
  | nil => intro j hj; simp at hj
  | cons x xs ih =>
    cases xs with
    | nil =>
      intro j hj
      have hj0 : j = 0 := by
        simp only [List.length_singleton] at hj
        omega
      subst hj0
      simp [np_argmax]
    | cons y ys =>
      intro j hj
      simp only [np_argmax]
      by_cases hc : x < (y :: ys).getD (np_argmax (y :: ys)) 0
      · rw [if_pos hc]
        cases j with
        | zero =>
          rw [List.getD_cons_zero, List.getD_cons_succ]
          exact le_of_lt hc
        | succ k =>
          rw [List.getD_cons_succ, List.getD_cons_succ]
          exact ih k (by simpa using Nat.lt_of_succ_lt_succ hj)
      · rw [if_neg hc]
        cases j with
        | zero => exact le_refl _
        | succ k =>
          rw [List.getD_cons_succ, List.getD_cons_zero]
          exact le_trans (ih k (by simpa using Nat.lt_of_succ_lt_succ hj))
            (le_of_not_lt hc)

/-- Every element strictly before `np_argmax` is strictly below the element
at `np_argmax`: the first maximal entry wins (numpy's stable argmax). -/
theorem np_argmax_first (l : List ℚ) :
    ∀ j, j < np_argmax l → l.getD j 0 < l.getD (np_argmax l) 0 := by
  induction l with
  | nil => intro j hj; simp [np_argmax] at hj
  | cons x xs ih =>
    cases xs with
    | nil => intro j hj; simp [np_argmax] at hj
    | cons y ys =>
      intro j hj
      simp only [np_argmax] at hj ⊢
      by_cases hc : x < (y :: ys).getD (np_argmax (y :: ys)) 0
      · rw [if_pos hc] at hj ⊢
        cases j with
        | zero =>
          rw [List.getD_cons_zero, List.getD_cons_succ]
          exact hc
        | succ k =>
          rw [List.getD_cons_succ, List.getD_cons_succ]
          exact ih k (Nat.lt_of_succ_lt_succ hj)
      · rw [if_neg hc] at hj
        exact absurd hj (Nat.not_lt_zero j)

/-- C5: `match_embedding_to_employee` reports no match on an empty roster;
on a nonempty roster it selects the first entry attaining the maximal
dot-product similarity (the chosen index dominates all entries and strictly
dominates all earlier ones) and returns that entry's id with its similarity
iff the maximum strictly exceeds the threshold, reporting `(none, 0)`
otherwise. -/
theorem match_embedding_spec (q : List ℚ) (roster : List (List ℚ))
    (ids : List Int) (t : ℚ) (hlen : ids.length = roster.length) :
    (roster = [] → match_embedding_to_employee q roster ids t = (none, 0)) ∧
    (roster ≠ [] →
      np_argmax (similarities q roster) < (similarities q roster).length ∧
      (∀ j < (similarities q roster).length,
        (similarities q roster).getD j 0 ≤
          (similarities q roster).getD (np_argmax (similarities q roster)) 0) ∧
      (∀ j < np_argmax (similarities q roster),
        (similarities q roster).getD j 0 <
          (similarities q roster).getD (np_argmax (similarities q roster)) 0) ∧
      (t < (similarities q roster).getD (np_argmax (similarities q roster)) 0 →
        match_embedding_to_employee q roster ids t =
          (some (ids.getD (np_argmax (similarities q roster)) 0),
           (similarities q roster).getD (np_argmax (similarities q roster)) 0)) ∧
      (¬ t < (similarities q roster).getD (np_argmax (similarities q roster)) 0 →
        match_embedding_to_employee q roster ids t = (none, 0))) := by
  constructor
  · intro h
    subst h
    rfl
  · intro hne
    have hsne : similarities q roster ≠ [] := by
      rcases List.exists_cons_of_ne_nil hne with ⟨r, rs, rfl⟩
      simp [similarities]
    have hempty : roster.isEmpty = false := by
      rcases List.exists_cons_of_ne_nil hne with ⟨r, rs, rfl⟩
      rfl
    refine ⟨np_argmax_lt_length _ hsne, np_argmax_le _, np_argmax_first _, ?_, ?_⟩
    · intro hthr
      unfold match_embedding_to_employee
      rw [hempty]
      simp only [Bool.false_eq_true, if_false]
      rw [if_pos hthr]
    · intro hthr
      unfold match_embedding_to_employee
      rw [hempty]
      simp only [Bool.false_eq_true, if_false]
      rw [if_neg hthr]

/-- Witness for C5: a roster with similarities `0.81, 0.1, 0.15` against
ids `7, 8, 9`: threshold `0.2` yields `(7, 0.81)` and threshold `0.85`
yields no match. -/
theorem match_embedding_spec_witness :
    match_embedding_to_employee [1] [[81/100], [1/10], [15/100]] [7, 8, 9] (1/5)
      = (some 7, 81/100) ∧
    match_embedding_to_employee [1] [[81/100], [1/10], [15/100]] [7, 8, 9] (17/20)
      = (none, 0) := by
  constructor
  · have h := ((match_embedding_spec [1] [[81/100], [1/10], [15/100]] [7, 8, 9]
      (1/5) (by norm_num)).2 (List.cons_ne_nil _ _)).2.2.2.1
    have hthr : (1 : ℚ)/5 <
        (similarities [1] [[81/100], [1/10], [15/100]]).getD
          (np_argmax (similarities [1] [[81/100], [1/10], [15/100]])) 0 := by
      norm_num [similarities, dot, np_argmax]
    have := h hthr
    rw [this]
    norm_num [similarities, dot, np_argmax]
  · have h := ((match_embedding_spec [1] [[81/100], [1/10], [15/100]] [7, 8, 9]
      (17/20) (by norm_num)).2 (List.cons_ne_nil _ _)).2.2.2.2
    apply h
    norm_num [similarities, dot, np_argmax]

/-- A truthy `Optional[int]` is a nonzero integer. -/
theorem pyTruthy_ne_some_zero (o : Option Int) (h : pyTruthy o = true) :
    o ≠ some 0 := by
  cases o with
  | none => simp
  | some k =>
    intro hcon
    injection hcon with hk
    subst hk
    simp [pyTruthy] at h

/-- `add_embedding` only touches the embedding, quality, bbox and time
fields. -/
theorem add_embedding_fields (t : FaceTrack) (e : List ℚ) (q : Quality)
    (b : Bbox) (n : ℚ) :
    (t.add_embedding e q b n).track_id = t.track_id ∧
    (t.add_embedding e q b n).recognized_employee_id = t.recognized_employee_id ∧
    (t.add_embedding e q b n).recognition_confidence = t.recognition_confidence ∧
    (t.add_embedding e q b n).embeddings = t.embeddings ++ [e] :=
  ⟨rfl, rfl, rfl, rfl⟩

/-- Case analysis on `resolveTrack`: either the track is returned unchanged,
or it was unresolved, its average embedding was matched with a truthy
result, and the two recognition fields are set from the match. -/
theorem resolveTrack_cases (cfg : TrackerConfig) (ke : List (List ℚ))
    (ki : List Int) (t1 : FaceTrack) :
    resolveTrack cfg ke ki t1 = t1 ∨
    (pyTruthy t1.recognized_employee_id = false ∧
      ∃ avg, t1.get_average_embedding = some avg ∧
        pyTruthy (match_embedding_to_employee avg ke ki
          cfg.insightface_threshold).1 = true ∧
        resolveTrack cfg ke ki t1 =
          { t1 with
            recognized_employee_id :=
              (match_embedding_to_employee avg ke ki cfg.insightface_threshold).1
            recognition_confidence :=
              (match_embedding_to_employee avg ke ki cfg.insightface_threshold).2 }) := by
  unfold resolveTrack
  by_cases hc : t1.is_ready_for_recognition cfg ∧ pyTruthy t1.recognized_employee_id = false
  · rw [if_pos hc]
    rcases havg : t1.get_average_embedding with _ | avg
    · exact Or.inl rfl
    · dsimp only
      by_cases hm : pyTruthy (match_embedding_to_employee avg ke ki
          cfg.insightface_threshold).1 = true
      · rw [if_pos hm]
        exact Or.inr ⟨hc.2, avg, rfl, hm, rfl⟩
      · rw [if_neg hm]
        exact Or.inl rfl
  · rw [if_neg hc]
    exact Or.inl rfl

/-- A track whose `recognized_employee_id` is truthy passes through
`resolveTrack` unchanged (recognition is never re-attempted). -/
theorem resolveTrack_of_truthy (cfg : TrackerConfig) (ke : List (List ℚ))
    (ki : List Int) (t1 : FaceTrack)
    (h : pyTruthy t1.recognized_employee_id = true) :
    resolveTrack cfg ke ki t1 = t1 := by
  unfold resolveTrack
  rw [if_neg]
  intro hcon
  rw [h] at hcon
  exact Bool.noConfusion hcon.2

/-- `resolveTrack` preserves the track id. -/
theorem resolveTrack_track_id (cfg : TrackerConfig) (ke : List (List ℚ))
    (ki : List Int) (t1 : FaceTrack) :
    (resolveTrack cfg ke ki t1).track_id = t1.track_id := by
  rcases resolveTrack_cases cfg ke ki t1 with h | ⟨-, avg, -, -, h⟩ <;> rw [h]

/-- Case analysis on one iteration of the face loop: the state is returned
unchanged, or one existing track is updated in place (embedding added, then
`resolveTrack`), or a fresh track is appended under `next_track_id`. -/
theorem processFace_cases (cfg : TrackerConfig) (now : ℚ) (oracle : FrameOracle)
    (ke : List (List ℚ)) (ki : List Int) (s : StepState) (face : Face) :
    processFace cfg now oracle ke ki s face = s ∨
    (∃ i best_track,
      s.tracks[i]? = some best_track ∧
      processFace cfg now oracle ke ki s face =
        { tracks := s.tracks.set i (resolveTrack cfg ke ki
            (best_track.add_embedding face.normed_embedding
              (oracle.assess face).2 face.bbox now))
          matched := best_track.track_id :: s.matched
          next_track_id := s.next_track_id }) ∨
    processFace cfg now oracle ke ki s face =
      { tracks := s.tracks ++ [(FaceTrack.mk0 s.next_track_id now).add_embedding
          face.normed_embedding (oracle.assess face).2 face.bbox now]
        matched := s.matched
        next_track_id := s.next_track_id + 1 } := by
  unfold processFace
  by_cases hcrop : oracle.cropOk face = false
  · rw [if_pos hcrop]
    exact Or.inl rfl
  · rw [if_neg hcrop]
    by_cases hq : (oracle.assess face).1 = false
    · rw [if_pos hq]
      exact Or.inl rfl
    · rw [if_neg hq]
      dsimp only
      rcases hfind : findMatchingTrack cfg s.tracks s.matched face.bbox with _ | i
      · exact Or.inr (Or.inr rfl)
      · dsimp only
        rcases hget : s.tracks[i]? with _ | best_track
        · exact Or.inl rfl
        · exact Or.inr (Or.inl ⟨i, best_track, hget, rfl⟩)

/-- Setting an index to the value it already holds is the identity. -/
theorem set_eq_self_of_getElem {α : Type} (l : List α) :
    ∀ (i : Nat) (a : α), l[i]? = some a → l.set i a = l := by
  induction l with
  | nil => intro i a h; rfl
  | cons x xs ih =>
    intro i a h
    cases i with
    | zero =>
      simp only [List.getElem?_cons_zero, Option.some.injEq] at h
      subst h
      rfl
    | succ k =>
      simp only [List.getElem?_cons_succ] at h
      show x :: xs.set k a = x :: xs
      rw [ih k a h]

/-- Generic preservation of an invariant along a left fold. -/
theorem foldl_preserve {σ α : Type} (P : σ → Prop) (f : σ → α → σ)
    (hf : ∀ s a, P s → P (f s a)) :
    ∀ (l : List α) (s : σ), P s → P (l.foldl f s) := by
  intro l
  induction l with
  | nil => intro s hs; exact hs
  | cons a rest ih =>
    intro s hs
    exact ih (f s a) (hf s a hs)

/-- `processFace` keeps every track id below `next_track_id`. -/
theorem processFace_bound (cfg : TrackerConfig) (now : ℚ) (oracle : FrameOracle)
    (ke : List (List ℚ)) (ki : List Int) (s : StepState) (face : Face)
    (h : ∀ t ∈ s.tracks, t.track_id < s.next_track_id) :
    ∀ t ∈ (processFace cfg now oracle ke ki s face).tracks,
      t.track_id < (processFace cfg now oracle ke ki s face).next_track_id := by
  rcases processFace_cases cfg now oracle ke ki s face with
    heq | ⟨i, bt, hget, heq⟩ | heq <;> rw [heq]
  · exact h
  · intro t ht
    rcases List.mem_or_eq_of_mem_set ht with hmem | rfl
    · exact h t hmem
    · rw [resolveTrack_track_id]
      exact h bt (List.getElem?_mem hget)
  · intro t ht
    rcases List.mem_append.mp ht with hmem | hmem
    · exact Nat.lt_succ_of_lt (h t hmem)
    · rw [List.mem_singleton] at hmem
      subst hmem
      exact Nat.lt_succ_self _

/-- `processFace` does not decrease `next_track_id`. -/
theorem processFace_next_mono (cfg : TrackerConfig) (now : ℚ)
    (oracle : FrameOracle) (ke : List (List ℚ)) (ki : List Int)
    (s : StepState) (face : Face) :
    s.next_track_id ≤ (processFace cfg now oracle ke ki s face).next_track_id := by
  rcases processFace_cases cfg now oracle ke ki s face with
    heq | ⟨i, bt, hget, heq⟩ | heq <;> rw [heq] <;>
    first
    | exact le_refl _
    | exact Nat.le_succ _

/-- `processFace` keeps the track ids distinct. -/
theorem processFace_nodup (cfg : TrackerConfig) (now : ℚ) (oracle : FrameOracle)
    (ke : List (List ℚ)) (ki : List Int) (s : StepState) (face : Face)
    (hb : ∀ t ∈ s.tracks, t.track_id < s.next_track_id)
    (hn : (s.tracks.map FaceTrack.track_id).Nodup) :
    ((processFace cfg now oracle ke ki s face).tracks.map
      FaceTrack.track_id).Nodup := by
  rcases processFace_cases cfg now oracle ke ki s face with
    heq | ⟨i, bt, hget, heq⟩ | heq <;> rw [heq]
  · exact hn
  · rw [List.map_set]
    rw [show (resolveTrack cfg ke ki (bt.add_embedding face.normed_embedding
        (oracle.assess face).2 face.bbox now)).track_id = bt.track_id from
      resolveTrack_track_id ..]
    rw [set_eq_self_of_getElem]
    · exact hn
    · rw [List.getElem?_map, hget]
      rfl
  · rw [List.map_append]
    refine List.nodup_append.mpr ⟨hn, List.nodup_singleton _, ?_⟩
    intro a ha hmem
    simp only [List.map_cons, List.map_nil, List.mem_singleton] at hmem
    subst hmem
    rcases List.mem_map.mp ha with ⟨t, ht, hts⟩
    have hlt := hb t ht
    have hnew : ((FaceTrack.mk0 s.next_track_id now).add_embedding
        face.normed_embedding (oracle.assess face).2 face.bbox now).track_id =
        s.next_track_id := rfl
    rw [hnew] at hts
    omega

/-- `processFace` never creates a track resolved to employee id 0. -/
theorem processFace_noZero (cfg : TrackerConfig) (now : ℚ) (oracle : FrameOracle)
    (ke : List (List ℚ)) (ki : List Int) (s : StepState) (face : Face)
    (h : ∀ t ∈ s.tracks, t.recognized_employee_id ≠ some 0) :
    ∀ t ∈ (processFace cfg now oracle ke ki s face).tracks,
      t.recognized_employee_id ≠ some 0 := by
  rcases processFace_cases cfg now oracle ke ki s face with
    heq | ⟨i, bt, hget, heq⟩ | heq <;> rw [heq]
  · exact h
  · intro t ht
    rcases List.mem_or_eq_of_mem_set ht with hmem | rfl
    · exact h t hmem
    · rcases resolveTrack_cases cfg ke ki (bt.add_embedding face.normed_embedding
        (oracle.assess face).2 face.bbox now) with hcase | ⟨-, avg, -, htr, hcase⟩
      · rw [hcase]
        exact h bt (List.getElem?_mem hget)
      · rw [hcase]
        exact pyTruthy_ne_some_zero _ htr
  · intro t ht
    rcases List.mem_append.mp ht with hmem | hmem
    · exact h t hmem
    · rw [List.mem_singleton] at hmem
      subst hmem
      simp [FaceTrack.add_embedding, FaceTrack.mk0]

/-- `processFace` never clears or rewrites a truthy resolved identity or its
confidence: pointwise stability at a fixed track id. -/
theorem processFace_fixed (cfg : TrackerConfig) (now : ℚ) (oracle : FrameOracle)
    (ke : List (List ℚ)) (ki : List Int) (s : StepState) (face : Face)
    (tid : Nat) (v : Option Int) (c : ℚ) (hv : pyTruthy v = true)
    (htid : tid < s.next_track_id)
    (h : ∀ t ∈ s.tracks, t.track_id = tid →
      t.recognized_employee_id = v ∧ t.recognition_confidence = c) :
    tid < (processFace cfg now oracle ke ki s face).next_track_id ∧
    ∀ t ∈ (processFace cfg now oracle ke ki s face).tracks, t.track_id = tid →
      t.recognized_employee_id = v ∧ t.recognition_confidence = c := by
  rcases processFace_cases cfg now oracle ke ki s face with
    heq | ⟨i, bt, hget, heq⟩ | heq <;> rw [heq]
  · exact ⟨htid, h⟩
  · refine ⟨htid, ?_⟩
    intro t ht hid
    rcases List.mem_or_eq_of_mem_set ht with hmem | rfl
    · exact h t hmem hid
    · rw [resolveTrack_track_id] at hid
      have hbt := h bt (List.getElem?_mem hget) hid
      have htr : resolveTrack cfg ke ki (bt.add_embedding face.normed_embedding
          (oracle.assess face).2 face.bbox now) =
          bt.add_embedding face.normed_embedding (oracle.assess face).2 face.bbox now := by
        apply resolveTrack_of_truthy
        show pyTruthy bt.recognized_employee_id = true
        rw [hbt.1]
        exact hv
      rw [htr]
      exact ⟨hbt.1, hbt.2⟩
  · refine ⟨Nat.lt_succ_of_lt htid, ?_⟩
    intro t ht hid
    rcases List.mem_append.mp ht with hmem | hmem
    · exact h t hmem hid
    · rw [List.mem_singleton] at hmem
      subst hmem
      have hnew : ((FaceTrack.mk0 s.next_track_id now).add_embedding
          face.normed_embedding (oracle.assess face).2 face.bbox now).track_id =
          s.next_track_id := rfl
      rw [hnew] at hid
      omega

/-- `FaceTracker.update` preserves well-formedness. -/
theorem update_WF (cfg : TrackerConfig) (st : TrackerState) (now : ℚ)
    (faces : List Face) (oracle : FrameOracle) (ke : List (List ℚ))
    (ki : List Int) (hwf : st.WF) :
    (FaceTracker.update cfg st now faces oracle ke ki).1.WF := by
  obtain ⟨hn, hb⟩ := hwf
  have hP := foldl_preserve
    (fun s : StepState => (s.tracks.map FaceTrack.track_id).Nodup ∧
      ∀ t ∈ s.tracks, t.track_id < s.next_track_id)
    (processFace cfg now oracle ke ki)
    (fun s face hs => ⟨processFace_nodup cfg now oracle ke ki s face hs.2 hs.1,
      processFace_bound cfg now oracle ke ki s face hs.2⟩)
    faces
    ⟨st.tracks.filter (fun t => t.is_alive cfg now), [], st.next_track_id⟩
    ⟨List.Nodup.sublist (List.Sublist.map FaceTrack.track_id
        (List.filter_sublist st.tracks)) hn,
      fun t ht => hb t (List.mem_of_mem_filter ht)⟩
  exact ⟨hP.1, hP.2⟩

/-- All reachable tracker states are well-formed. -/
theorem trackerReachable_WF (cfg : TrackerConfig) (st : TrackerState)
    (h : TrackerReachable cfg st) : st.WF := by
  induction h with
  | init => exact ⟨List.nodup_nil, fun t ht => absurd ht (List.not_mem_nil t)⟩
  | @step st2 a hprev ih =>
    exact update_WF cfg st2 a.now a.faces a.oracle a.known_embeddings a.known_ids ih

/-- One `update` call preserves the no-zero-identity invariant. -/
theorem update_noZero (cfg : TrackerConfig) (st : TrackerState) (now : ℚ)
    (faces : List Face) (oracle : FrameOracle) (ke : List (List ℚ))
    (ki : List Int)
    (h : ∀ t ∈ st.tracks, t.recognized_employee_id ≠ some 0) :
    ∀ t ∈ (FaceTracker.update cfg st now faces oracle ke ki).1.tracks,
      t.recognized_employee_id ≠ some 0 := by
  have hP := foldl_preserve
    (fun s : StepState => ∀ t ∈ s.tracks, t.recognized_employee_id ≠ some 0)
    (processFace cfg now oracle ke ki)
    (fun s face hs => processFace_noZero cfg now oracle ke ki s face hs)
    faces
    ⟨st.tracks.filter (fun t => t.is_alive cfg now), [], st.next_track_id⟩
    (fun t ht => h t (List.mem_of_mem_filter ht))
  exact hP

/-- C10: in every reachable tracker state no track is resolved to employee
id 0: the truthiness guard `if emp_id:` discards a match whose roster id is
0, so id 0 can never become a track's `recognized_employee_id`. -/
theorem tracker_never_resolves_zero (cfg : TrackerConfig) (st : TrackerState)
    (h : TrackerReachable cfg st) :
    st.tracks.all (fun t => t.recognized_employee_id != some 0) = true := by
  have hprop : ∀ t ∈ st.tracks, t.recognized_employee_id ≠ some 0 := by
    induction h with
    | init => intro t ht; exact absurd ht (List.not_mem_nil t)
    | @step st2 a hprev ih =>
      exact update_noZero cfg st2 a.now a.faces a.oracle a.known_embeddings
        a.known_ids ih
  rw [List.all_eq_true]
  intro t ht
  simpa [bne_iff_ne] using hprop t ht

/-- A demo bounding box. -/
def bb0 : Bbox := ⟨0, 0, 10, 10⟩

/-- A demo quality-metrics record. -/
def q0 : Quality := ⟨10, 10, 100, 100⟩

/-- A demo detection whose embedding matches the demo roster perfectly. -/
def face0 : Face := ⟨bb0, [1]⟩

/-- A frame oracle under which every crop is nonempty and acceptable. -/
def oracle0 : FrameOracle := ⟨fun _ => true, fun _ => (true, q0)⟩

/-- A demo tracker config: 2 embeddings per track, 2 s max age, IoU 0.3,
similarity threshold 0.2 (the source defaults). -/
def cfg0 : TrackerConfig := ⟨2, 2, 3/10, 1/5⟩

/-- Witness for C10: one update from the initial state against a roster
whose single entry has employee id 0 and similarity 1 (above threshold)
leaves every track unresolved-or-nonzero. -/
theorem tracker_never_resolves_zero_witness :
    (FaceTracker.update cfg0 TrackerState.init 0 [face0] oracle0
        [[1]] [0]).1.tracks.all
      (fun t => t.recognized_employee_id != some 0) = true :=
  tracker_never_resolves_zero cfg0 _
    (TrackerReachable.step ⟨0, [face0], oracle0, [[1]], [0]⟩ TrackerReachable.init)

/-- One `update` call keeps a truthy resolved identity and its confidence
intact on every track carrying a fixed id. -/
theorem update_fixed (cfg : TrackerConfig) (st : TrackerState) (now : ℚ)
    (faces : List Face) (oracle : FrameOracle) (ke : List (List ℚ))
    (ki : List Int) (tid : Nat) (v : Option Int) (c : ℚ)
    (hv : pyTruthy v = true) (h1 : tid < st.next_track_id)
    (h2 : ∀ t ∈ st.tracks, t.track_id = tid →
      t.recognized_employee_id = v ∧ t.recognition_confidence = c) :
    tid < (FaceTracker.update cfg st now faces oracle ke ki).1.next_track_id ∧
    ∀ t ∈ (FaceTracker.update cfg st now faces oracle ke ki).1.tracks,
      t.track_id = tid →
      t.recognized_employee_id = v ∧ t.recognition_confidence = c := by
  have hP := foldl_preserve
    (fun s : StepState => tid < s.next_track_id ∧
      ∀ t ∈ s.tracks, t.track_id = tid →
        t.recognized_employee_id = v ∧ t.recognition_confidence = c)
    (processFace cfg now oracle ke ki)
    (fun s face hs =>
      processFace_fixed cfg now oracle ke ki s face tid v c hv hs.1 hs.2)
    faces
    ⟨st.tracks.filter (fun t => t.is_alive cfg now), [], st.next_track_id⟩
    ⟨h1, fun t ht => h2 t (List.mem_of_mem_filter ht)⟩
  exact hP

/-- Any sequence of `update` calls keeps a truthy resolved identity and its
confidence intact on every track carrying a fixed id. -/
theorem applyUpdates_fixed (cfg : TrackerConfig) (tid : Nat) (v : Option Int)
    (c : ℚ) (hv : pyTruthy v = true) :
    ∀ (l : List UpdateArgs) (st : TrackerState),
      tid < st.next_track_id →
      (∀ t ∈ st.tracks, t.track_id = tid →
        t.recognized_employee_id = v ∧ t.recognition_confidence = c) →
      tid < (applyUpdates cfg st l).next_track_id ∧
      ∀ t ∈ (applyUpdates cfg st l).tracks, t.track_id = tid →
        t.recognized_employee_id = v ∧ t.recognition_confidence = c := by
  intro l
  induction l with
  | nil => intro st h1 h2; exact ⟨h1, h2⟩
  | cons a rest ih =>
    intro st h1 h2
    rw [applyUpdates]
    have hstep := update_fixed cfg st a.now a.faces a.oracle a.known_embeddings
      a.known_ids tid v c hv h1 h2
    exact ih _ hstep.1 hstep.2

/-- C6: once a track's `recognized_employee_id` is truthy, no later
sequence of `update` calls clears it, changes it, or changes the stored
confidence: every surviving track with the same id keeps both fields
(resolution is never re-attempted on it). -/
theorem track_resolution_permanent (cfg : TrackerConfig) (st : TrackerState)
    (tr : FaceTrack) (hwf : st.WF) (hmem : tr ∈ st.tracks)
    (hres : pyTruthy tr.recognized_employee_id = true) (l : List UpdateArgs) :
    (applyUpdates cfg st l).tracks.all (fun t2 =>
      (t2.track_id != tr.track_id) ||
      (decide (t2.recognized_employee_id = tr.recognized_employee_id) &&
       decide (t2.recognition_confidence = tr.recognition_confidence))) = true := by
  have hinit : ∀ t2 ∈ st.tracks, t2.track_id = tr.track_id →
      t2.recognized_employee_id = tr.recognized_employee_id ∧
      t2.recognition_confidence = tr.recognition_confidence := by
    intro t2 ht2 hid
    have heq : t2 = tr := List.inj_on_of_nodup_map hwf.1 ht2 hmem hid
    subst heq
    exact ⟨rfl, rfl⟩
  have hfix := applyUpdates_fixed cfg tr.track_id tr.recognized_employee_id
    tr.recognition_confidence hres l st (hwf.2 tr hmem) hinit
  rw [List.all_eq_true]
  intro t2 ht2
  by_cases hid : t2.track_id = tr.track_id
  · have hkeep := hfix.2 t2 ht2 hid
    simp only [Bool.or_eq_true, Bool.and_eq_true, decide_eq_true_eq]
    exact Or.inr ⟨hkeep.1, hkeep.2⟩
  · simp only [Bool.or_eq_true, bne_iff_ne, ne_eq]
    exact Or.inl hid

/-- A demo track already resolved to employee 7 with confidence 0.9. -/
def trRes : FaceTrack := ⟨1, [[1]], [q0], some bb0, 0, some 7, 9/10⟩

/-- A demo tracker state holding the resolved track. -/
def stRes : TrackerState := ⟨[trRes], 2⟩

/-- Witness for C6: after a further update call with a matching face, the
resolved track keeps employee 7 and confidence 0.9. -/
theorem track_resolution_permanent_witness :
    (applyUpdates cfg0 stRes [⟨1, [face0], oracle0, [[1]], [7]⟩]).tracks.all
      (fun t2 =>
        (t2.track_id != trRes.track_id) ||
        (decide (t2.recognized_employee_id = trRes.recognized_employee_id) &&
         decide (t2.recognition_confidence = trRes.recognition_confidence)))
      = true :=
  track_resolution_permanent cfg0 stRes trRes
    ⟨by simp [stRes, trRes], by
      intro t ht
      simp only [stRes, List.mem_singleton] at ht
      subst ht
      norm_num [trRes, stRes]⟩
    (by simp [stRes])
    (by simp [trRes, pyTruthy])
    [⟨1, [face0], oracle0, [[1]], [7]⟩]

/-- A demo track with two accumulated embeddings and no resolved
identity. -/
def tr0 : FaceTrack := ⟨1, [[1], [1]], [q0, q0], some bb0, 0, none, 0⟩

/-- Counterexample for C3 as stated: an alive track with enough embeddings
(2 of 2) and no resolved identity, whose average embedding would match the
roster (similarity 1 above threshold 0.2), is left unresolved by an
`update` call in which it receives no new detection (`faces = []`):
resolution is not attempted for tracks without a detection. -/
theorem tracker_no_detection_no_resolution :
    tr0.is_ready_for_recognition cfg0 = true ∧
    tr0.recognized_employee_id = none ∧
    tr0.get_average_embedding = some [1] ∧
    match_embedding_to_employee [1] [[1]] [7] cfg0.insightface_threshold =
      (some 7, 1) ∧
    (FaceTracker.update cfg0 ⟨[tr0], 2⟩ 1 [] oracle0 [[1]] [7]).1.tracks =
      [tr0] := by
  refine ⟨rfl, rfl, ?_, ?_, ?_⟩
  · norm_num [tr0, FaceTrack.get_average_embedding, vecAdd]
  · norm_num [match_embedding_to_employee, similarities, dot, np_argmax, cfg0]
  · norm_num [FaceTracker.update, FaceTrack.is_alive, tr0, cfg0, List.filter]

/-- A demo track with a single accumulated embedding and no resolved
identity. -/
def tr1 : FaceTrack := ⟨1, [[1]], [q0], some bb0, 0, none, 0⟩

/-- C3 (amended): on an `update` call, identity resolution is attempted for
a track that receives a new detection in that call: when the face passes
the crop and quality gates and IoU-matches track `t` (at index `i` of the
live tracks), and after the embedding is added the track reaches
`min_embeddings_per_track` with no truthy resolved identity, then the
element-wise mean of all accumulated embeddings is matched against the
roster passed to this call; a truthy match sets the identity and
confidence, otherwise the track stays as it was after the addition. -/
theorem tracker_resolution_on_detection (cfg : TrackerConfig)
    (st : TrackerState) (now : ℚ) (f : Face) (oracle : FrameOracle)
    (ke : List (List ℚ)) (ki : List Int) (i : Nat) (t t1 : FaceTrack)
    (avg : List ℚ) (r : Option Int × ℚ)
    (hcrop : oracle.cropOk f = true)
    (hq : (oracle.assess f).1 = true)
    (hfind : findMatchingTrack cfg
      (st.tracks.filter (fun t2 => t2.is_alive cfg now)) [] f.bbox = some i)
    (hget : (st.tracks.filter (fun t2 => t2.is_alive cfg now))[i]? = some t)
    (hready : cfg.min_embeddings_per_track ≤ t.embeddings.length + 1)
    (hunres : pyTruthy t.recognized_employee_id = false)
    (ht1 : t1 = t.add_embedding f.normed_embedding (oracle.assess f).2 f.bbox now)
    (havg : t1.get_average_embedding = some avg)
    (hr : r = match_embedding_to_employee avg ke ki cfg.insightface_threshold) :
    (pyTruthy r.1 = true →
      (FaceTracker.update cfg st now [f] oracle ke ki).1.tracks =
        (st.tracks.filter (fun t2 => t2.is_alive cfg now)).set i
          { t1 with
            recognized_employee_id := r.1
            recognition_confidence := r.2 }) ∧
    (pyTruthy r.1 = false →
      (FaceTracker.update cfg st now [f] oracle ke ki).1.tracks =
        (st.tracks.filter (fun t2 => t2.is_alive cfg now)).set i t1) := by
  have hupd : (FaceTracker.update cfg st now [f] oracle ke ki).1.tracks =
      (processFace cfg now oracle ke ki
        ⟨st.tracks.filter (fun t2 => t2.is_alive cfg now), [],
          st.next_track_id⟩ f).tracks := rfl
  have hstep : processFace cfg now oracle ke ki
      ⟨st.tracks.filter (fun t2 => t2.is_alive cfg now), [],
        st.next_track_id⟩ f =
      { tracks := (st.tracks.filter (fun t2 => t2.is_alive cfg now)).set i
          (resolveTrack cfg ke ki t1)
        matched := [t.track_id]
        next_track_id := st.next_track_id } := by
    unfold processFace
    rw [if_neg (by simp [hcrop]), if_neg (by simp [hq])]
    dsimp only
    rw [hfind]
    dsimp only
    rw [hget]
    dsimp only
    rw [← ht1]
  have hresolve : resolveTrack cfg ke ki t1 =
      if pyTruthy r.1 then
        { t1 with recognized_employee_id := r.1, recognition_confidence := r.2 }
      else t1 := by
    unfold resolveTrack
    rw [if_pos ?cond]
    case cond =>
      constructor
      · rw [ht1]
        simp only [FaceTrack.is_ready_for_recognition, FaceTrack.add_embedding,
          List.length_append, List.length_singleton, decide_eq_true_eq]
        exact hready
      · rw [ht1]
        exact hunres
    rw [havg]
    dsimp only
    rw [← hr]
  rw [hupd, hstep]
  dsimp only
  rw [hresolve]
  constructor
  · intro htrue
    rw [if_pos htrue]
  · intro hfalse
    rw [if_neg (by simp [hfalse])]

/-- Witness for the amended C3: a track with one embedding receives a
matching detection, reaches the 2-embedding minimum, the mean `[1]` is
matched against roster id 7 with similarity 1 above threshold, and the
track comes out resolved to employee 7 with confidence 1. -/
theorem tracker_resolution_on_detection_witness :
    (FaceTracker.update cfg0 ⟨[tr1], 2⟩ 1 [face0] oracle0 [[1]] [7]).1.tracks =
      [{ tr1.add_embedding [1] q0 bb0 1 with
          recognized_employee_id := some 7
          recognition_confidence := 1 }] := by
  have h := (tracker_resolution_on_detection cfg0 ⟨[tr1], 2⟩ 1 face0 oracle0
    [[1]] [7] 0 tr1 (tr1.add_embedding [1] q0 bb0 1) [1] (some 7, 1)
    rfl rfl
    (by norm_num [tr1, cfg0, face0, bb0, FaceTrack.is_alive, findMatchingTrack,
      findMatchingTrackAux, compute_iou, List.filter])
    (by norm_num [tr1, cfg0, FaceTrack.is_alive, List.filter])
    (by norm_num [tr1, cfg0])
    rfl rfl
    (by norm_num [tr1, FaceTrack.add_embedding, FaceTrack.get_average_embedding,
      vecAdd])
    (by norm_num [match_embedding_to_employee, similarities, dot, np_argmax,
      cfg0])).1 rfl
  rw [h]
  norm_num [tr1, cfg0, FaceTrack.is_alive, List.filter]

end RecognitionService
